import Mathlib

/-!
Verification of the census feature pipeline in
`self-paced-labs/ai-platform-qwikstart/ai_platform_qwik_start.ipynb`
(the `trainer/util.py` cell).  The Python functions
`_download_and_clean_file`, `download`, `preprocess`, `standardize` and
`load_data` are shallowly embedded below; machine floats are idealised as
exact field elements and strings as lists of characters.
-/

namespace CensusPipeline

/-! ## Cleaning pass (`_download_and_clean_file`)

A line of the downloaded file is a `List Char`.  The Python loop runs, for
each line: `line.strip()`, `line.replace(', ', ',')`, skips the line when it
is empty or has no comma, drops one trailing `'.'`, appends `'\n'` and
writes the result. -/

/-- Python `str.strip()` whitespace set: space, tab, newline, carriage
return, vertical tab, form feed. -/
def isPySpace (c : Char) : Bool :=
  c = ' ' || c = '\t' || c = '\n' || c = '\r' || c = '\x0b' || c = '\x0c'

/-- Python `line.strip()`: remove leading and trailing whitespace. -/
def pyStrip (l : List Char) : List Char :=
  ((l.dropWhile isPySpace).reverse.dropWhile isPySpace).reverse

/-- Python `line.replace(', ', ',')`: replace every (left-to-right,
non-overlapping) occurrence of a comma followed by a space with a comma. -/
def squashCommaSpace : List Char → List Char
  | ',' :: ' ' :: rest => ',' :: squashCommaSpace rest
  | c :: rest => c :: squashCommaSpace rest
  | [] => []

/-- The per-line body of `_download_and_clean_file`: `none` means the line
is skipped (`continue`), `some out` means `out` is written to the cleaned
file. -/
def cleanLine (l : List Char) : Option (List Char) :=
  let s1 := pyStrip l
  let s2 := squashCommaSpace s1
  if s2 = [] ∨ ¬ (',' ∈ s2) then none
  else
    let s3 := if s2.getLast? = some '.' then s2.dropLast else s2
    some (s3 ++ ['\n'])

/-- The whole cleaning loop of `_download_and_clean_file` applied to the
lines of the downloaded file. -/
def cleanFile (lines : List (List Char)) : List (List Char) :=
  lines.filterMap cleanLine

/-- Number of comma-separated fields of a CSV line. -/
def numFields (l : List Char) : Nat :=
  (l.filter (fun c => c = ',')).length + 1

/-! ## Download (`download`)

The filesystem is a map from paths to file contents (a missing path is
`none`); the network is a map from URLs to the raw lines served there.
`tf.io.gfile.makedirs` only creates directories and is invisible in this
model.  `download` returns the new filesystem together with the list of
URLs actually fetched, in order. -/

def DATA_URL : String :=
  "https://storage.googleapis.com/cloud-samples-data/ai-platform/census/data"

def TRAINING_FILE : String := "adult.data.csv"

def EVAL_FILE : String := "adult.test.csv"

def TRAINING_URL : String := DATA_URL ++ "/" ++ TRAINING_FILE

def EVAL_URL : String := DATA_URL ++ "/" ++ EVAL_FILE

/-- `os.path.join` for the two paths the code builds. -/
def pathJoin (dir file : String) : String := dir ++ "/" ++ file

/-- A filesystem: path to file contents (lines). -/
def FSys : Type := String → Option (List (List Char))

/-- Write a file. -/
def fsWrite (fs : FSys) (p : String) (content : List (List Char)) : FSys :=
  fun q => if q = p then some content else fs q

/-- One `if not tf.io.gfile.exists(path): _download_and_clean_file(path, url)`
step: returns the filesystem and the URLs fetched ( `[]` or `[url]`). -/
def downloadOne (remote : String → List (List Char)) (fs : FSys)
    (path url : String) : FSys × List String :=
  match fs path with
  | some _ => (fs, [])
  | none => (fsWrite fs path (cleanFile (remote url)), [url])

/-- The `download(data_dir)` function: fetch-and-clean each of the two
files unless it already exists. -/
def download (remote : String → List (List Char)) (fs : FSys)
    (dataDir : String) : FSys × List String :=
  let r1 := downloadOne remote fs (pathJoin dataDir TRAINING_FILE) TRAINING_URL
  let r2 := downloadOne remote r1.1 (pathJoin dataDir EVAL_FILE) EVAL_URL
  (r2.1, r1.2 ++ r2.2)

/-- Concrete filesystem with both census files cached, for the C7 witness. -/
def fsBoth : FSys := fun p =>
  if p = "/tmp/census_data/adult.data.csv" then some ["1,2".toList]
  else if p = "/tmp/census_data/adult.test.csv" then some ["3,4".toList]
  else none

/-! ## Feature tables

A pandas dataframe is modelled as an ordered list of named, typed columns.
Numeric cells hold values of a field `F` (exact arithmetic stands in for
the machine floats); `Cell.na` is pandas `NaN`; `Cell.str` is a cell of an
`object` (free-text) column.  The dtypes that occur in the pipeline:
`int64` (raw integer columns), `float64` (numeric columns that contained a
missing value at parse time), `float32` (widened numeric columns),
`obj` (raw string columns) and `int8` (pandas `cat.codes` output). -/

inductive Dtype where
  | int64
  | float64
  | float32
  | obj
  | int8
  deriving DecidableEq

inductive Cell (F : Type) where
  | num (x : F)
  | str (s : String)
  | na
  deriving DecidableEq

structure Col (F : Type) where
  name : String
  dtype : Dtype
  vals : List (Cell F)
  deriving DecidableEq

abbrev Table (F : Type) := List (Col F)

/-! ## Static schema data (module-level constants of `trainer/util.py`) -/

def _CSV_COLUMNS : List String :=
  ["age", "workclass", "fnlwgt", "education", "education_num",
   "marital_status", "occupation", "relationship", "race", "gender",
   "capital_gain", "capital_loss", "hours_per_week", "native_country",
   "income_bracket"]

def _LABEL_COLUMN : String := "income_bracket"

def UNUSED_COLUMNS : List String := ["fnlwgt", "education", "gender"]

def workclassCats : List String :=
  ["Federal-gov", "Local-gov", "Never-worked", "Private", "Self-emp-inc",
   "Self-emp-not-inc", "State-gov", "Without-pay"]

def maritalStatusCats : List String :=
  ["Divorced", "Married-AF-spouse", "Married-civ-spouse",
   "Married-spouse-absent", "Never-married", "Separated", "Widowed"]

def occupationCats : List String :=
  ["Adm-clerical", "Armed-Forces", "Craft-repair", "Exec-managerial",
   "Farming-fishing", "Handlers-cleaners", "Machine-op-inspct",
   "Other-service", "Priv-house-serv", "Prof-specialty", "Protective-serv",
   "Sales", "Tech-support", "Transport-moving"]

def relationshipCats : List String :=
  ["Husband", "Not-in-family", "Other-relative", "Own-child", "Unmarried",
   "Wife"]

def raceCats : List String :=
  ["Amer-Indian-Eskimo", "Asian-Pac-Islander", "Black", "Other", "White"]

def nativeCountryCats : List String :=
  ["Cambodia", "Canada", "China", "Columbia", "Cuba", "Dominican-Republic",
   "Ecuador", "El-Salvador", "England", "France", "Germany", "Greece",
   "Guatemala", "Haiti", "Holand-Netherlands", "Honduras", "Hong",
   "Hungary", "India", "Iran", "Ireland", "Italy", "Jamaica", "Japan",
   "Laos", "Mexico", "Nicaragua", "Outlying-US(Guam-USVI-etc)", "Peru",
   "Philippines", "Poland", "Portugal", "Puerto-Rico", "Scotland", "South",
   "Taiwan", "Thailand", "Trinadad&Tobago", "United-States", "Vietnam",
   "Yugoslavia"]

def incomeBracketCats : List String := ["<=50K", ">50K"]

/-- The per-column declared vocabularies (`pd.api.types.CategoricalDtype`
entries), in declared order. -/
def _CATEGORICAL_TYPES : List (String × List String) :=
  [("workclass", workclassCats),
   ("marital_status", maritalStatusCats),
   ("occupation", occupationCats),
   ("relationship", relationshipCats),
   ("race", raceCats),
   ("native_country", nativeCountryCats),
   ("income_bracket", incomeBracketCats)]

/-! ## `preprocess` -/

section TableOps

variable {F : Type} [Field F]

/-- `pd.read_csv(..., na_values='?')` maps the raw token `"?"` to a missing
value at parse time; any other token of a string column stays a string. -/
def parseToken (s : String) : Cell F :=
  if s = "?" then Cell.na else Cell.str s

/-- `x.astype(CategoricalDtype(categories)).cat.codes` for a single cell:
a declared category becomes its zero-based position in the declared order,
anything else (missing, or a value outside the vocabulary) becomes the
out-of-range code `-1`. -/
def catCode (vocab : List String) : Cell F → Cell F
  | Cell.str s =>
      if s ∈ vocab then Cell.num ((vocab.indexOf s : ℕ) : F)
      else Cell.num (-1)
  | _ => Cell.num (-1)

/-- The int64-to-float32 widening pass
(`dataframe[numeric_columns].astype('float32')`): only columns whose dtype
is exactly `int64` are selected; values are unchanged. -/
def widen (c : Col F) : Col F :=
  if c.dtype = Dtype.int64 then { c with dtype := Dtype.float32 } else c

/-- Whether a column survives `dataframe.drop(columns=UNUSED_COLUMNS)`. -/
def keepCol (c : Col F) : Bool := decide (c.name ∉ UNUSED_COLUMNS)

/-- The categorical pass for one column: a column of dtype `object` is
looked up in `_CATEGORICAL_TYPES` (a missing entry is a `KeyError`, hence
`none`) and replaced by its category codes (dtype `int8`); any other
column is untouched. -/
def encodeCol (c : Col F) : Option (Col F) :=
  if c.dtype = Dtype.obj then
    match List.lookup c.name _CATEGORICAL_TYPES with
    | some vocab =>
        some { c with dtype := Dtype.int8, vals := c.vals.map (catCode vocab) }
    | none => none
  else some c

/-- The categorical pass over all columns. -/
def encodeCols : Table F → Option (Table F)
  | [] => some []
  | c :: cs =>
    match encodeCol c, encodeCols cs with
    | some c', some cs' => some (c' :: cs')
    | _, _ => none

/-- `preprocess(dataframe)`: drop the unused columns (pandas `drop` raises
a `KeyError` when one of them is absent, hence the guard), widen `int64`
columns to `float32`, then turn `object` columns into category codes. -/
def preprocess (t : Table F) : Option (Table F) :=
  if ∀ n ∈ UNUSED_COLUMNS, ∃ c ∈ t, c.name = n then
    encodeCols ((t.filter keepCol).map widen)
  else none

/-- Column lookup by name (`dataframe[name]`, first match). -/
def findCol (nm : String) : Table F → Option (Col F)
  | [] => none
  | c :: cs => if c.name = nm then some c else findCol nm cs

/-- `dataframe.pop(name)`: return the named column and the table without
it (`KeyError`, hence `none`, when absent). -/
def popCol (nm : String) (t : Table F) : Option (Col F × Table F) :=
  match findCol nm t with
  | some c => some (c, t.filter (fun d => decide (d.name ≠ nm)))
  | none => none

/-! ## `standardize`

pandas `Series.mean()` and `Series.std()` skip missing values and use the
sample (ddof = 1) standard deviation; `sq` stands for the real square
root, passed as a parameter so that the definitions stay executable over
any field. -/

/-- The numeric values of a column, missing cells skipped. -/
def nums : List (Cell F) → List F
  | [] => []
  | Cell.num x :: r => x :: nums r
  | _ :: r => nums r

/-- `Series.mean()`. -/
def mean (xs : List F) : F := xs.sum / (xs.length : F)

/-- `Series.var()` with the default ddof = 1 (sample variance);
`Series.std()` is its square root. -/
def svar (xs : List F) : F :=
  (xs.map (fun v => (v - mean xs) ^ 2)).sum / ((xs.length : F) - 1)

/-- One step of `dataframe[column] -= dataframe[column].mean()` on a cell. -/
def centerCell (m : F) : Cell F → Cell F
  | Cell.num x => Cell.num (x - m)
  | c => c

/-- One step of `dataframe[column] /= dataframe[column].std()` on a cell. -/
def scaleCell (s : F) : Cell F → Cell F
  | Cell.num x => Cell.num (x / s)
  | c => c

/-- The body of the `standardize` loop for one column: subtract the
column mean in place, then divide in place by the standard deviation of
the (now centered) column. -/
def standardizeCol (sq : F → F) (cs : List (Cell F)) : List (Cell F) :=
  (cs.map (centerCell (mean (nums cs)))).map
    (scaleCell (sq (svar (nums (cs.map (centerCell (mean (nums cs))))))))

/-- `standardize(dataframe)`: scale every column whose dtype is exactly
`float32`; every other column is untouched. -/
def standardize (sq : F → F) (t : Table F) : Table F :=
  t.map (fun c =>
    if c.dtype = Dtype.float32
    then { c with vals := standardizeCol sq c.vals } else c)

/-! ## `load_data` -/

/-- `pd.concat([train_x, eval_x], keys=...)`: the two frames share their
column names and dtypes, and each column becomes the concatenation of the
two value lists. -/
def concatTables (t u : Table F) : Option (Table F) :=
  if t.map Col.name = u.map Col.name ∧ t.map Col.dtype = u.map Col.dtype then
    some (List.zipWith (fun a b => { a with vals := a.vals ++ b.vals }) t u)
  else none

/-- `all_x.xs('train')`: the first `n` rows of every column. -/
def tableTake (n : ℕ) (t : Table F) : Table F :=
  t.map (fun c => { c with vals := c.vals.take n })

/-- `all_x.xs('eval')`: the remaining rows of every column. -/
def tableDrop (n : ℕ) (t : Table F) : Table F :=
  t.map (fun c => { c with vals := c.vals.drop n })

/-- `np.asarray(column).astype('float32')` on an already-numeric column. -/
def cellVal : Cell F → F
  | Cell.num x => x
  | _ => 0

def colToVec (c : Col F) : List F := c.vals.map cellVal

/-- `.reshape((-1, 1))`: one label per row. -/
def reshape1 (v : List F) : List (List F) := v.map (fun x => [x])

/-- `load_data()`, starting from the two parsed dataframes (the download
and CSV-parse steps are modelled separately): preprocess each split, pop
the label column from each, concatenate the feature tables, standardize
the combined table, split it back at the training row count, and turn the
label columns into 0.0/1.0 column vectors. -/
def load_data (sq : F → F) (train_df eval_df : Table F) :
    Option (Table F × List (List F) × Table F × List (List F)) :=
  (preprocess train_df).bind fun tp =>
  (preprocess eval_df).bind fun ep =>
  (popCol _LABEL_COLUMN tp).bind fun pt =>
  (popCol _LABEL_COLUMN ep).bind fun pe =>
  (concatTables pt.2 pe.2).map fun allX =>
    (tableTake pt.1.vals.length (standardize sq allX), reshape1 (colToVec pt.1),
     tableDrop pt.1.vals.length (standardize sq allX), reshape1 (colToVec pe.1))

end TableOps

/-- Concrete raw table for the C9 witness. -/
def tW9 : Table ℚ :=
  [⟨"age", Dtype.int64, [Cell.num 39]⟩,
   ⟨"workclass", Dtype.obj, [Cell.str "State-gov"]⟩,
   ⟨"fnlwgt", Dtype.int64, [Cell.num 77516]⟩,
   ⟨"education", Dtype.obj, [Cell.str "Bachelors"]⟩,
   ⟨"gender", Dtype.obj, [Cell.str "Male"]⟩]

/-- `preprocess tW9`, evaluated. -/
def tW9' : Table ℚ :=
  [⟨"age", Dtype.float32, [Cell.num 39]⟩,
   ⟨"workclass", Dtype.int8, [Cell.num 6]⟩]

/-- Concrete raw table for the C8 witness. -/
def tW8 : Table ℚ :=
  [⟨"fnlwgt", Dtype.int64, [Cell.num 0]⟩,
   ⟨"education", Dtype.obj, [Cell.str "Bachelors"]⟩,
   ⟨"gender", Dtype.obj, [Cell.str "Male"]⟩,
   ⟨"native_country", Dtype.obj, [Cell.str "Holand-Netherlands"]⟩]

/-- `preprocess tW8`, evaluated. -/
def tW8' : Table ℚ :=
  [⟨"native_country", Dtype.int8, [Cell.num 14]⟩]

/-- Train split of the combined table for the C1 witness. -/
def trC1 : Table ℝ := [⟨"age", Dtype.float32, [Cell.num 1, Cell.num 2]⟩]

/-- Eval split of the combined table for the C1 witness. -/
def evC1 : Table ℝ := [⟨"age", Dtype.float32, [Cell.num 3]⟩]

/-- The combined (train ++ eval) table for the C1 witness. -/
def allC1 : Table ℝ := [⟨"age", Dtype.float32, [Cell.num 1, Cell.num 2, Cell.num 3]⟩]

/-- Raw table with a `float64` column (a numeric column that contained a
missing value at parse time) for the C10 witness. -/
def uW10 : Table ℝ :=
  [⟨"fnlwgt", Dtype.int64, [Cell.num 7, Cell.num 8]⟩,
   ⟨"education", Dtype.obj, [Cell.str "Bachelors", Cell.str "Masters"]⟩,
   ⟨"gender", Dtype.obj, [Cell.str "Male", Cell.str "Female"]⟩,
   ⟨"capital_gain", Dtype.float64, [Cell.num 0, Cell.na]⟩]

/-- `preprocess uW10`, evaluated. -/
def uW10' : Table ℝ :=
  [⟨"capital_gain", Dtype.float64, [Cell.num 0, Cell.na]⟩]

/-- Raw two-row training dataframe for the C3 witness. -/
def tdfC3 : Table ℝ :=
  [⟨"fnlwgt", Dtype.int64, [Cell.num 1, Cell.num 2]⟩,
   ⟨"education", Dtype.obj, [Cell.str "Bachelors", Cell.str "Masters"]⟩,
   ⟨"gender", Dtype.obj, [Cell.str "Male", Cell.str "Female"]⟩,
   ⟨"capital_gain", Dtype.float64, [Cell.num 3, Cell.na]⟩,
   ⟨"income_bracket", Dtype.obj, [Cell.str "<=50K", Cell.str ">50K"]⟩]

/-- Raw one-row evaluation dataframe for the C3 witness. -/
def edfC3 : Table ℝ :=
  [⟨"fnlwgt", Dtype.int64, [Cell.num 4]⟩,
   ⟨"education", Dtype.obj, [Cell.str "Doctorate"]⟩,
   ⟨"gender", Dtype.obj, [Cell.str "Male"]⟩,
   ⟨"capital_gain", Dtype.float64, [Cell.num 5]⟩,
   ⟨"income_bracket", Dtype.obj, [Cell.str ">50K"]⟩]

/-- The label column of `tdfC3`. -/
def ctC3 : Col ℝ :=
  ⟨"income_bracket", Dtype.obj, [Cell.str "<=50K", Cell.str ">50K"]⟩

/-- The label column of `edfC3`. -/
def ceC3 : Col ℝ := ⟨"income_bracket", Dtype.obj, [Cell.str ">50K"]⟩

/-- `train_x` produced by `load_data` on the C3 witness tables. -/
def txC3 : Table ℝ :=
  [⟨"capital_gain", Dtype.float64, [Cell.num 3, Cell.na]⟩]

/-- `eval_x` produced by `load_data` on the C3 witness tables. -/
def exC3 : Table ℝ := [⟨"capital_gain", Dtype.float64, [Cell.num 5]⟩]

end CensusPipeline

namespace CensusPipeline

/-! ## Theorems about cleaning and download -/

/-- **C6.** The cleaning pass trims surrounding whitespace, normalizes
`", "` to `","`, discards empty and comma-free lines, strips a trailing
period and appends a newline: on the sample raw line the output is exactly
the comma-normalized, period-stripped line plus `'\n'`; the empty line and
a comma-free line are discarded. -/
theorem cleaning_end_to_end_line :
    cleanLine ("39, State-gov, 77516, Bachelors, 13, Never-married, Adm-clerical, Not-in-family, White, Male, 2174, 0, 40, United-States, <=50K.".toList)
      = some ("39,State-gov,77516,Bachelors,13,Never-married,Adm-clerical,Not-in-family,White,Male,2174,0,40,United-States,<=50K\n".toList)
    ∧ cleanLine "".toList = none
    ∧ cleanLine "no comma here".toList = none
    ∧ cleanLine "  a, b.  ".toList = some "a,b\n".toList := by
  refine ⟨?_, ?_, ?_, ?_⟩ <;> decide

/-- **C7.** `download` is idempotent: when both destination files already
exist in the data directory, the call fetches no URL and returns the
filesystem unchanged (hence both cached files are byte-for-byte intact). -/
theorem download_idempotent (remote : String → List (List Char)) (fs : FSys)
    (dataDir : String)
    (htrain : (fs (pathJoin dataDir TRAINING_FILE)).isSome)
    (heval : (fs (pathJoin dataDir EVAL_FILE)).isSome) :
    download remote fs dataDir = (fs, []) := by
  unfold download downloadOne
  rcases h1 : fs (pathJoin dataDir TRAINING_FILE) with _ | c1
  · rw [h1] at htrain; simp [Option.isSome] at htrain
  · rcases h2 : fs (pathJoin dataDir EVAL_FILE) with _ | c2
    · rw [h2] at heval; simp [Option.isSome] at heval
    · simp [h1, h2]

/-- Witness for C7: on a filesystem that already has both cached files,
`download` performs no fetch and leaves the filesystem untouched. -/
theorem download_idempotent_witness :
    (fsBoth ("/tmp/census_data/" ++ TRAINING_FILE)).isSome = true
    ∧ (fsBoth ("/tmp/census_data/" ++ EVAL_FILE)).isSome = true
    ∧ download (fun _ => []) fsBoth "/tmp/census_data" = (fsBoth, []) :=
  ⟨by decide, by decide,
    download_idempotent (fun _ => []) fsBoth "/tmp/census_data"
      (by decide) (by decide)⟩

/-- **C4, counterexample.** The claim says every retained line has exactly
15 comma-separated fields, does not end with a literal period, and that
wrong-field-count rows are dropped; but the cleaning pass never counts
fields — the two-field line `"a,b"` is retained — and it strips only one
trailing period, so the line `"a,b.."` is retained with a body that still
ends in a literal period. -/
theorem cleaning_retains_wrong_field_count :
    cleanLine "a,b".toList = some "a,b\n".toList
    ∧ numFields "a,b".toList = 2
    ∧ (2 : Nat) ≠ 15
    ∧ cleanLine "a,b..".toList = some "a,b.\n".toList
    ∧ "a,b.\n".toList.dropLast.getLast? = some '.' := by
  refine ⟨?_, ?_, ?_, ?_, ?_⟩ <;> decide

/-- **C4, amended.** Retained lines are nonempty, contain at least one
comma and end with the appended newline; lines are dropped only when (after
trimming and comma-normalization) they are empty or comma-free — no
field-count check exists; and exactly one trailing period is stripped, so
the body of a retained line ends with a literal period exactly when the
trimmed, comma-normalized line ended with two consecutive periods. -/
theorem cleaning_retained_shape :
    (∀ l out, cleanLine l = some out →
      out ≠ [] ∧ ',' ∈ out ∧ out.getLast? = some '\n'
      ∧ (out.dropLast.getLast? = some '.' ↔
          (squashCommaSpace (pyStrip l)).getLast? = some '.'
          ∧ (squashCommaSpace (pyStrip l)).dropLast.getLast? = some '.'))
    ∧ (∀ l, cleanLine l = none →
        squashCommaSpace (pyStrip l) = [] ∨ ¬ (',' ∈ squashCommaSpace (pyStrip l))) := by
  constructor
  · intro l out h
    unfold cleanLine at h
    set s2 := squashCommaSpace (pyStrip l) with hs2
    by_cases hcond : s2 = [] ∨ ¬ (',' ∈ s2)
    · simp [hcond] at h
    · simp only [hcond, if_false] at h
      push_neg at hcond
      obtain ⟨hne, hmem⟩ := hcond
      set s3 := if s2.getLast? = some '.' then s2.dropLast else s2 with hs3
      have hout : out = s3 ++ ['\n'] := by
        simpa using h.symm
      refine ⟨by simp [hout], ?_, ?_, ?_⟩
      · -- the comma survives the trailing-period strip
        rw [hout]
        rw [hs3]
        by_cases hdot : s2.getLast? = some '.'
        · simp only [hdot, if_true]
          rcases List.mem_iff_get.mp hmem with ⟨⟨i, hi⟩, hget⟩
          have hilen : i < s2.length := hi
          have hlast : s2.getLast? = s2.get? (s2.length - 1) := by
            rw [List.getLast?_eq_get? s2]
          have hine : i ≠ s2.length - 1 := by
            intro hcontr
            have : s2.get? i = some ',' := by
              rw [← hget]; exact (List.get?_eq_get hi).symm ▸ rfl
            rw [hcontr, ← hlast, hdot] at this
            simp at this
          have hidrop : i < s2.dropLast.length := by
            rw [List.length_dropLast]
            omega
          have : s2.dropLast.get ⟨i, hidrop⟩ = ',' := by
            rw [List.get_dropLast, ← hget]
          have hmem' : ',' ∈ s2.dropLast :=
            this ▸ List.get_mem _ i hidrop
          simp [hmem']
        · simp only [hdot, if_false]
          simp [hmem]
      · rw [hout, List.getLast?_append]
        rfl
      · rw [hout, List.dropLast_concat, hs3]
        by_cases hdot2 : s2.getLast? = some '.'
        · simp only [hdot2, if_true]
          simp [hdot2]
        · simp only [hdot2, if_false]
          simp [hdot2]
  · intro l h
    unfold cleanLine at h
    by_cases hcond : squashCommaSpace (pyStrip l) = []
        ∨ ¬ (',' ∈ squashCommaSpace (pyStrip l))
    · exact hcond
    · simp [hcond] at h

/-- Witness for the amended C4: the theorem applied to the concrete lines
`"a,b."` (retained; comma kept, newline appended, single period stripped,
body period-free), `"a,b.."` (retained with a body still ending in a
period, since the cleaned line ended with two consecutive periods) and to
the dropped line `"xyz"`. -/
theorem cleaning_retained_shape_witness :
    "a,b\n".toList ≠ [] ∧ ',' ∈ "a,b\n".toList
    ∧ "a,b\n".toList.getLast? = some '\n'
    ∧ "a,b\n".toList.dropLast.getLast? ≠ some '.'
    ∧ "a,b.\n".toList.dropLast.getLast? = some '.'
    ∧ (squashCommaSpace (pyStrip "xyz".toList) = []
        ∨ ¬ (',' ∈ squashCommaSpace (pyStrip "xyz".toList))) := by
  have h := cleaning_retained_shape.1 "a,b.".toList "a,b\n".toList (by decide)
  have h2 := cleaning_retained_shape.1 "a,b..".toList "a,b.\n".toList (by decide)
  refine ⟨h.1, h.2.1, h.2.2.1, ?_, ?_, cleaning_retained_shape.2 "xyz".toList (by decide)⟩
  · intro hc
    exact absurd (h.2.2.2.mp hc).2 (by decide)
  · exact h2.2.2.2.mpr ⟨by decide, by decide⟩

/-! ## Lemmas about `preprocess` -/

section PreprocessLemmas

variable {F : Type} [Field F]

theorem widen_name (c : Col F) : (widen c).name = c.name := by
  unfold widen; split <;> rfl

theorem widen_vals (c : Col F) : (widen c).vals = c.vals := by
  unfold widen; split <;> rfl

theorem widen_of_ne_int64 {c : Col F} (h : c.dtype ≠ Dtype.int64) :
    widen c = c := by
  unfold widen
  rw [if_neg h]

theorem encodeCol_of_ne_obj {c : Col F} (h : c.dtype ≠ Dtype.obj) :
    encodeCol c = some c := by
  unfold encodeCol
  rw [if_neg h]

theorem encodeCol_obj {c : Col F} {vocab : List String}
    (hd : c.dtype = Dtype.obj)
    (hv : List.lookup c.name _CATEGORICAL_TYPES = some vocab) :
    encodeCol c
      = some { c with dtype := Dtype.int8, vals := c.vals.map (catCode vocab) } := by
  unfold encodeCol
  rw [if_pos hd, hv]

theorem encodeCol_name {c c' : Col F} (h : encodeCol c = some c') :
    c'.name = c.name ∧ c'.vals.length = c.vals.length := by
  unfold encodeCol at h
  by_cases hd : c.dtype = Dtype.obj
  · rw [if_pos hd] at h
    rcases hv : List.lookup c.name _CATEGORICAL_TYPES with _ | vocab <;> rw [hv] at h
    · exact Option.noConfusion h
    · cases Option.some.inj h
      simp
  · rw [if_neg hd] at h
    cases Option.some.inj h
    exact ⟨rfl, rfl⟩

theorem encodeCols_cons {c : Col F} {cs l' : Table F}
    (h : encodeCols (c :: cs) = some l') :
    ∃ c' cs', encodeCol c = some c' ∧ encodeCols cs = some cs' ∧ l' = c' :: cs' := by
  unfold encodeCols at h
  rcases h1 : encodeCol c with _ | c' <;> rw [h1] at h
  · exact Option.noConfusion h
  · rcases h2 : encodeCols cs with _ | cs' <;> rw [h2] at h
    · exact Option.noConfusion h
    · exact ⟨c', cs', rfl, rfl, (Option.some.inj h).symm⟩

theorem encodeCols_names {l l' : Table F} (h : encodeCols l = some l') :
    l'.map Col.name = l.map Col.name := by
  induction l generalizing l' with
  | nil =>
    cases Option.some.inj h
    rfl
  | cons a as ih =>
    obtain ⟨a', as', h1, h2, rfl⟩ := encodeCols_cons h
    simp [(encodeCol_name h1).1, ih h2]

theorem encodeCols_mem_fwd {l l' : Table F} (h : encodeCols l = some l') :
    ∀ c ∈ l, ∃ c' ∈ l', encodeCol c = some c' := by
  induction l generalizing l' with
  | nil => intro c hc; exact absurd hc (List.not_mem_nil c)
  | cons a as ih =>
    obtain ⟨a', as', h1, h2, rfl⟩ := encodeCols_cons h
    intro c hc
    rcases List.mem_cons.mp hc with rfl | hc
    · exact ⟨a', List.mem_cons_self _ _, h1⟩
    · obtain ⟨c', hc', he⟩ := ih h2 c hc
      exact ⟨c', List.mem_cons_of_mem _ hc', he⟩

theorem encodeCols_mem_rev {l l' : Table F} (h : encodeCols l = some l') :
    ∀ c' ∈ l', ∃ c ∈ l, encodeCol c = some c' := by
  induction l generalizing l' with
  | nil =>
    cases Option.some.inj h
    intro c' hc'
    exact absurd hc' (List.not_mem_nil c')
  | cons a as ih =>
    obtain ⟨a', as', h1, h2, rfl⟩ := encodeCols_cons h
    intro c' hc'
    rcases List.mem_cons.mp hc' with rfl | hc'
    · exact ⟨a, List.mem_cons_self _ _, h1⟩
    · obtain ⟨c, hc, he⟩ := ih h2 c' hc'
      exact ⟨c, List.mem_cons_of_mem _ hc, he⟩

theorem keepCol_false_mem {c : Col F} (h : keepCol c = false) :
    c.name ∈ UNUSED_COLUMNS := by
  by_contra hc
  rw [keepCol, decide_eq_false_iff_not] at h
  exact h hc

theorem findCol_filter_keep (l : Table F) {nm : String}
    (hnm : nm ∉ UNUSED_COLUMNS) :
    findCol nm (l.filter keepCol) = findCol nm l := by
  induction l with
  | nil => rfl
  | cons a as ih =>
    by_cases hk : keepCol a
    · rw [List.filter_cons_of_pos hk]
      by_cases hn : a.name = nm
      · rw [findCol, findCol, if_pos hn, if_pos hn]
      · rw [findCol, findCol, if_neg hn, if_neg hn, ih]
    · have hmem := keepCol_false_mem (Bool.eq_false_iff.mpr hk)
      have hn : a.name ≠ nm := fun he => hnm (he ▸ hmem)
      rw [List.filter_cons_of_neg hk, findCol, if_neg hn, ih]

theorem findCol_map_widen (l : Table F) (nm : String) :
    findCol nm (l.map widen) = (findCol nm l).map widen := by
  induction l with
  | nil => rfl
  | cons a as ih =>
    by_cases hn : a.name = nm
    · have hw : (widen a).name = nm := by rw [widen_name]; exact hn
      rw [List.map_cons, findCol, findCol, if_pos hn, if_pos hw, Option.map_some']
    · have hw : (widen a).name ≠ nm := by rw [widen_name]; exact hn
      rw [List.map_cons, findCol, findCol, if_neg hn, if_neg hw, ih]

theorem findCol_encodeCols {l l' : Table F} {nm : String} {c : Col F}
    (h : encodeCols l = some l') (hf : findCol nm l = some c) :
    ∃ c', findCol nm l' = some c' ∧ encodeCol c = some c' := by
  induction l generalizing l' with
  | nil => exact Option.noConfusion hf
  | cons a as ih =>
    obtain ⟨a', as', h1, h2, rfl⟩ := encodeCols_cons h
    by_cases hn : a.name = nm
    · rw [findCol, if_pos hn] at hf
      cases Option.some.inj hf
      have hn' : a'.name = nm := by rw [(encodeCol_name h1).1]; exact hn
      exact ⟨a', by rw [findCol, if_pos hn'], h1⟩
    · rw [findCol, if_neg hn] at hf
      have hn' : a'.name ≠ nm := by rw [(encodeCol_name h1).1]; exact hn
      obtain ⟨c', hfind', he⟩ := ih h2 hf
      exact ⟨c', by rw [findCol, if_neg hn']; exact hfind', he⟩

theorem preprocess_body {t t' : Table F} (h : preprocess t = some t') :
    encodeCols ((t.filter keepCol).map widen) = some t' := by
  rw [preprocess] at h
  by_cases hck : ∀ n ∈ UNUSED_COLUMNS, ∃ c ∈ t, c.name = n
  · rwa [if_pos hck] at h
  · rw [if_neg hck] at h
    exact Option.noConfusion h

end PreprocessLemmas

/-! ## Theorems about `preprocess` (encode) -/

/-- **C2.** A missing categorical value, or one absent from its column's
declared vocabulary, is encoded to the fixed out-of-range code `-1` —
never to `0` or any valid zero-based index — and encoding a declared
`object` column never fails whatever its values; in particular the raw
token `"?"` (turned into a missing value at parse time) encodes to `-1`
under the `workclass` vocabulary. -/
theorem encode_missing_to_out_of_range :
    (∀ (vocab : List String) (x : Cell ℚ),
        (x = Cell.na ∨ ∀ s, x = Cell.str s → s ∉ vocab) →
        catCode vocab x = Cell.num (-1)
        ∧ ∀ k : ℕ, catCode vocab x ≠ Cell.num (k : ℚ))
    ∧ (∀ (c : Col ℚ) (vocab : List String), c.dtype = Dtype.obj →
        List.lookup c.name _CATEGORICAL_TYPES = some vocab →
        (encodeCol c).isSome = true)
    ∧ (∀ vocab : List String,
        List.lookup "workclass" _CATEGORICAL_TYPES = some vocab →
        catCode vocab (parseToken (F := ℚ) "?") = Cell.num (-1)) := by
  refine ⟨?_, ?_, ?_⟩
  · intro vocab x hx
    have h1 : catCode vocab x = Cell.num (-1) := by
      cases x with
      | num y => rfl
      | na => rfl
      | str s =>
        rcases hx with h | h
        · exact Cell.noConfusion h
        · rw [catCode, if_neg (h s rfl)]
    refine ⟨h1, fun k hcontr => ?_⟩
    rw [h1] at hcontr
    have hval : (-1 : ℚ) = (k : ℚ) := by
      injection hcontr
    have hk0 : (0 : ℚ) ≤ (k : ℚ) := Nat.cast_nonneg k
    linarith
  · intro c vocab hd hv
    rw [encodeCol_obj hd hv]
    rfl
  · intro vocab _
    rfl

/-- Witness for C2: `"?"` under the workclass vocabulary, an
out-of-vocabulary string, the no-collision fact at index 0, and the
no-error fact for a workclass column holding both. -/
theorem encode_missing_to_out_of_range_witness :
    catCode workclassCats (parseToken (F := ℚ) "?") = Cell.num (-1)
    ∧ catCode workclassCats (Cell.str "Banker" : Cell ℚ) = Cell.num (-1)
    ∧ catCode workclassCats (Cell.na : Cell ℚ) ≠ Cell.num ((0 : ℕ) : ℚ)
    ∧ (encodeCol (⟨"workclass", Dtype.obj, [Cell.na, Cell.str "Banker"]⟩ : Col ℚ)).isSome
        = true := by
  have h := encode_missing_to_out_of_range
  refine ⟨h.2.2 workclassCats (by decide), ?_, (h.1 workclassCats Cell.na (Or.inl rfl)).2 0, ?_⟩
  · exact (h.1 workclassCats (Cell.str "Banker")
      (Or.inr (fun s hs => by cases hs; decide))).1
  · exact h.2.1 ⟨"workclass", Dtype.obj, [Cell.na, Cell.str "Banker"]⟩
      workclassCats rfl (by decide)

/-- **C9.** `preprocess` outputs none of the columns `fnlwgt`,
`education`, `gender`, and retains every other column of the input (the
output's column names are exactly the kept input names, in order). -/
theorem preprocess_drops_unused (t t' : Table ℚ) (h : preprocess t = some t') :
    (∀ c' ∈ t', c'.name ∉ UNUSED_COLUMNS)
    ∧ t'.map Col.name = (t.filter keepCol).map Col.name
    ∧ (∀ c ∈ t, c.name ∉ UNUSED_COLUMNS → ∃ c' ∈ t', c'.name = c.name) := by
  have h' := preprocess_body h
  have hnames : t'.map Col.name = ((t.filter keepCol).map widen).map Col.name :=
    encodeCols_names h'
  have hnames2 : ((t.filter keepCol).map widen).map Col.name
      = (t.filter keepCol).map Col.name := by
    rw [List.map_map]
    exact List.map_congr_left (fun c _ => widen_name c)
  refine ⟨?_, by rw [hnames, hnames2], ?_⟩
  · intro c' hc'
    have hmemname : c'.name ∈ (t.filter keepCol).map Col.name := by
      rw [← hnames2, ← hnames]
      exact List.mem_map_of_mem _ hc'
    obtain ⟨c, hcf, hname⟩ := List.mem_map.mp hmemname
    have hk := (List.mem_filter.mp hcf).2
    rw [← hname]
    rw [keepCol, decide_eq_true_eq] at hk
    exact hk
  · intro c hc hnm
    have hcf : c ∈ t.filter keepCol :=
      List.mem_filter.mpr ⟨hc, by rw [keepCol, decide_eq_true_eq]; exact hnm⟩
    obtain ⟨c', hc', he⟩ := encodeCols_mem_fwd h' (widen c) (List.mem_map_of_mem _ hcf)
    exact ⟨c', hc', by rw [(encodeCol_name he).1, widen_name]⟩

/-- Witness for C9 at a concrete five-column table. -/
theorem preprocess_drops_unused_witness :
    preprocess tW9 = some tW9'
    ∧ tW9'.map Col.name = (tW9.filter keepCol).map Col.name :=
  ⟨by decide, (preprocess_drops_unused tW9 tW9' (by decide)).2.1⟩

/-- **C8.** `encode` is deterministic and vocabulary-stable: in any table,
a categorical column's in-vocabulary value `s` is encoded to the fixed
integer `vocab.indexOf s` — its position in the declared vocabulary —
independently of the table's other rows, columns and values. -/
theorem encode_vocab_stable (t t' : Table ℚ) (c : Col ℚ) (vocab : List String)
    (h : preprocess t = some t') (hfind : findCol c.name t = some c)
    (hobj : c.dtype = Dtype.obj) (hnm : c.name ∉ UNUSED_COLUMNS)
    (hv : List.lookup c.name _CATEGORICAL_TYPES = some vocab)
    (k : ℕ) (s : String) (hk : c.vals.get? k = some (Cell.str s)) (hs : s ∈ vocab) :
    findCol c.name t'
      = some { c with dtype := Dtype.int8, vals := c.vals.map (catCode vocab) }
    ∧ (c.vals.map (catCode (F := ℚ) vocab)).get? k
      = some (Cell.num ((vocab.indexOf s : ℕ) : ℚ)) := by
  have h' := preprocess_body h
  have h1 : findCol c.name (t.filter keepCol) = some c := by
    rw [findCol_filter_keep _ hnm, hfind]
  have h2 : findCol c.name ((t.filter keepCol).map widen) = some c := by
    rw [findCol_map_widen, h1, Option.map_some',
      widen_of_ne_int64 (by rw [hobj]; exact fun hcontr => Dtype.noConfusion hcontr)]
  obtain ⟨c', hfind', he⟩ := findCol_encodeCols h' h2
  rw [encodeCol_obj hobj hv] at he
  refine ⟨by rw [hfind', Option.some.inj he], ?_⟩
  rw [List.get?_map, hk, Option.map_some', catCode, if_pos hs]

/-- Witness for C8: `"Holand-Netherlands"` in `native_country` encodes to
its fixed vocabulary position 14 inside a concrete table. -/
theorem encode_vocab_stable_witness :
    findCol "native_country" tW8'
      = some ⟨"native_country", Dtype.int8, [Cell.num (14 : ℚ)]⟩
    ∧ ([Cell.str "Holand-Netherlands"].map (catCode (F := ℚ) nativeCountryCats)).get? 0
      = some (Cell.num ((nativeCountryCats.indexOf "Holand-Netherlands" : ℕ) : ℚ)) := by
  have h := encode_vocab_stable tW8 tW8'
    ⟨"native_country", Dtype.obj, [Cell.str "Holand-Netherlands"]⟩ nativeCountryCats
    (by decide) (by decide) rfl (by decide) (by decide) 0 "Holand-Netherlands" rfl
    (by decide)
  refine ⟨?_, h.2⟩
  rw [h.1]
  decide

/-! ## Lemmas about `standardize` (over ℝ) -/

theorem sum_map_sub (xs : List ℝ) (m : ℝ) :
    (xs.map (fun v => v - m)).sum = xs.sum - xs.length * m := by
  induction xs with
  | nil => simp
  | cons a l ih =>
    simp only [List.map_cons, List.sum_cons, ih, List.length_cons]
    push_cast
    ring

theorem sum_map_div (xs : List ℝ) (f : ℝ → ℝ) (s : ℝ) :
    (xs.map (fun v => f v / s)).sum = (xs.map f).sum / s := by
  induction xs with
  | nil => simp
  | cons a l ih =>
    simp only [List.map_cons, List.sum_cons, ih]
    rw [add_div]

theorem length_ne_zero_real {xs : List ℝ} (h : xs ≠ []) : (xs.length : ℝ) ≠ 0 := by
  have : 0 < xs.length := List.length_pos.mpr h
  exact_mod_cast Nat.pos_iff_ne_zero.mp this

theorem mean_map_sub {xs : List ℝ} (h : xs ≠ []) (m : ℝ) :
    mean (xs.map (fun v => v - m)) = mean xs - m := by
  have hn : (xs.length : ℝ) ≠ 0 := length_ne_zero_real h
  rw [mean, mean, List.length_map, sum_map_sub, sub_div]
  congr 1
  rw [mul_comm, mul_div_assoc, div_self hn, mul_one]

theorem mean_map_div (xs : List ℝ) (s : ℝ) :
    mean (xs.map (fun v => v / s)) = mean xs / s := by
  have h : (xs.map (fun v => v / s)).sum = xs.sum / s := by
    simpa using sum_map_div xs (fun v => v) s
  rw [mean, mean, List.length_map, h, div_right_comm]

theorem svar_map_sub (xs : List ℝ) (m : ℝ) :
    svar (xs.map (fun v => v - m)) = svar xs := by
  rcases eq_or_ne xs [] with rfl | h
  · rfl
  · rw [svar, svar, List.length_map, mean_map_sub h, List.map_map]
    have hmap : List.map ((fun v => (v - (mean xs - m)) ^ 2) ∘ fun v => v - m) xs
        = List.map (fun v => (v - mean xs) ^ 2) xs := by
      apply List.map_congr_left
      intro v _
      simp only [Function.comp_apply]
      ring
    rw [hmap]

theorem svar_map_div (xs : List ℝ) (s : ℝ) :
    svar (xs.map (fun v => v / s)) = svar xs / s ^ 2 := by
  rw [svar, svar, List.length_map, mean_map_div, List.map_map]
  have hfun : ((fun v => (v - mean xs / s) ^ 2) ∘ fun v => v / s)
      = fun v => ((v - mean xs) ^ 2) / s ^ 2 := by
    funext v
    simp only [Function.comp]
    rw [div_sub_div_same, div_pow]
  rw [hfun, sum_map_div xs (fun v => (v - mean xs) ^ 2) (s ^ 2), div_right_comm]

theorem svar_nil : svar ([] : List ℝ) = 0 := by
  simp [svar]

theorem svar_nonneg (xs : List ℝ) : 0 ≤ svar xs := by
  rcases eq_or_ne xs [] with rfl | h
  · rw [svar_nil]
  · apply div_nonneg
    · apply List.sum_nonneg
      intro x hx
      obtain ⟨v, _, rfl⟩ := List.mem_map.mp hx
      positivity
    · have h1 : 1 ≤ xs.length := List.length_pos.mpr h
      have h2 : (1 : ℝ) ≤ (xs.length : ℝ) := by exact_mod_cast h1
      linarith

theorem ne_nil_of_svar_ne_zero {xs : List ℝ} (h : svar xs ≠ 0) : xs ≠ [] := by
  intro he
  rw [he, svar_nil] at h
  exact h rfl

theorem nums_map_center (cs : List (Cell ℝ)) (m : ℝ) :
    nums (cs.map (centerCell m)) = (nums cs).map (fun v => v - m) := by
  induction cs with
  | nil => rfl
  | cons a l ih => cases a <;> simp [centerCell, nums, ih]

theorem nums_map_scale (cs : List (Cell ℝ)) (s : ℝ) :
    nums (cs.map (scaleCell s)) = (nums cs).map (fun v => v / s) := by
  induction cs with
  | nil => rfl
  | cons a l ih => cases a <;> simp [scaleCell, nums, ih]

/-- The two in-place passes of `standardize` amount to replacing every
numeric value `v` by `(v - mean) / sqrt (svar)` with the statistics of the
original column (the standard deviation is translation invariant). -/
theorem standardizeCol_eq (cs : List (Cell ℝ)) :
    standardizeCol Real.sqrt cs
      = cs.map (fun x => match x with
          | Cell.num v =>
              Cell.num ((v - mean (nums cs)) / Real.sqrt (svar (nums cs)))
          | y => y) := by
  rw [standardizeCol, nums_map_center, svar_map_sub, List.map_map]
  apply List.map_congr_left
  intro x _
  cases x <;> rfl

theorem mean_standardizeCol {cs : List (Cell ℝ)} (h : svar (nums cs) ≠ 0) :
    mean (nums (standardizeCol Real.sqrt cs)) = 0 := by
  have hne : nums cs ≠ [] := ne_nil_of_svar_ne_zero h
  rw [standardizeCol, nums_map_scale, nums_map_center, mean_map_div,
    mean_map_sub hne, sub_self, zero_div]

theorem svar_standardizeCol {cs : List (Cell ℝ)} (h : svar (nums cs) ≠ 0) :
    svar (nums (standardizeCol Real.sqrt cs)) = 1 := by
  rw [standardizeCol, nums_map_scale, nums_map_center, svar_map_sub,
    svar_map_div, svar_map_sub, Real.sq_sqrt (svar_nonneg _)]
  exact div_self h

theorem standardize_get? (sq : ℝ → ℝ) (t : Table ℝ) (i : ℕ) :
    (standardize sq t).get? i = (t.get? i).map (fun c =>
      if c.dtype = Dtype.float32
      then { c with vals := standardizeCol sq c.vals } else c) := by
  rw [standardize, List.get?_map]

/-! ## Theorems about `standardize` -/

/-- **C1.** On the combined (train concatenated with eval) table, every
float32 column has each value `v` replaced by `(v - mean) / stddev`, with
the mean and sample standard deviation computed over all rows of the
combined column; consequently, when that column's sample variance is
nonzero, the standardized column has mean exactly 0 and sample standard
deviation exactly 1 (exact-real idealization of the float arithmetic). -/
theorem normalize_combined_stats (tr ev all : Table ℝ)
    (hcat : concatTables tr ev = some all)
    (i : ℕ) (c : Col ℝ) (hi : all.get? i = some c) (hf : c.dtype = Dtype.float32) :
    (standardize Real.sqrt all).get? i
      = some { c with vals := c.vals.map (fun x => match x with
          | Cell.num v =>
              Cell.num ((v - mean (nums c.vals)) / Real.sqrt (svar (nums c.vals)))
          | y => y) }
    ∧ (svar (nums c.vals) ≠ 0 →
        mean (nums (standardizeCol Real.sqrt c.vals)) = 0
        ∧ Real.sqrt (svar (nums (standardizeCol Real.sqrt c.vals))) = 1) := by
  refine ⟨?_, fun h => ⟨mean_standardizeCol h, by
    rw [svar_standardizeCol h, Real.sqrt_one]⟩⟩
  rw [standardize_get?, hi, Option.map_some', if_pos hf, standardizeCol_eq]

/-- Witness for C1: combined column `[1, 2, 3]` (2 train rows, 1 eval
row) standardizes to mean 0 and standard deviation 1. -/
theorem normalize_combined_stats_witness :
    mean (nums (standardizeCol Real.sqrt [Cell.num (1 : ℝ), Cell.num 2, Cell.num 3])) = 0
    ∧ Real.sqrt (svar (nums
        (standardizeCol Real.sqrt [Cell.num (1 : ℝ), Cell.num 2, Cell.num 3]))) = 1 := by
  have hsvar : svar (nums [Cell.num (1 : ℝ), Cell.num 2, Cell.num 3]) = 1 := by
    simp [svar, mean, nums]
    norm_num
  have h := normalize_combined_stats trC1 evC1 allC1 (by simp [concatTables, trC1, evC1, allC1])
    0 ⟨"age", Dtype.float32, [Cell.num 1, Cell.num 2, Cell.num 3]⟩ rfl rfl
  exact h.2 (by rw [hsvar]; exact one_ne_zero)

/-- **C5 (code evidence).** On a zero-variance float32 column the code
has no guard: the sample standard deviation is 0, yet `standardize`
still subtracts the mean and divides every entry by that zero standard
deviation and returns a table (under IEEE float semantics the 0/0 division
makes every entry NaN; no error is raised). -/
theorem standardize_zero_variance_no_guard :
    svar (nums [Cell.num (1 : ℝ), Cell.num 1]) = 0
    ∧ Real.sqrt (svar (nums [Cell.num (1 : ℝ), Cell.num 1])) = 0
    ∧ standardize Real.sqrt [⟨"age", Dtype.float32, [Cell.num 1, Cell.num 1]⟩]
      = [⟨"age", Dtype.float32, [Cell.num 0, Cell.num 0]⟩] := by
  have h0 : svar (nums [Cell.num (1 : ℝ), Cell.num 1]) = 0 := by
    simp [svar, mean, nums]
  refine ⟨h0, by rw [h0, Real.sqrt_zero], ?_⟩
  simp only [standardize, List.map_cons, List.map_nil, if_pos rfl]
  rw [standardizeCol_eq]
  simp [h0, mean, nums]

/-- **C10.** `standardize` rewrites only columns of dtype exactly
`float32` and returns every other column unchanged (integer category-code
columns included); the int64 widening selects only `int64` columns, so a
numeric column parsed as `float64` (because it contained a missing value)
passes through `preprocess` and `standardize` with its values untouched. -/
theorem standardize_frame_float64_passthrough :
    (∀ (t : Table ℝ) (i : ℕ) (c : Col ℝ), t.get? i = some c →
        c.dtype ≠ Dtype.float32 → (standardize Real.sqrt t).get? i = some c)
    ∧ (∀ (u u' : Table ℝ) (c : Col ℝ), preprocess u = some u' → c ∈ u →
        c.name ∉ UNUSED_COLUMNS → c.dtype = Dtype.float64 →
        widen c = c ∧ c ∈ u' ∧ c ∈ standardize Real.sqrt u') := by
  constructor
  · intro t i c hi hd
    rw [standardize_get?, hi, Option.map_some', if_neg hd]
  · intro u u' c h hc hnm hd
    have hf32 : c.dtype ≠ Dtype.float32 := by rw [hd]; intro hx; exact Dtype.noConfusion hx
    have hW : widen c = c :=
      widen_of_ne_int64 (by rw [hd]; intro hx; exact Dtype.noConfusion hx)
    have hcf : c ∈ u.filter keepCol :=
      List.mem_filter.mpr ⟨hc, by rw [keepCol, decide_eq_true_eq]; exact hnm⟩
    have hcw : c ∈ (u.filter keepCol).map widen := by
      rw [← hW]
      exact List.mem_map_of_mem _ hcf
    obtain ⟨c', hc', he⟩ := encodeCols_mem_fwd (preprocess_body h) c hcw
    rw [encodeCol_of_ne_obj (by rw [hd]; intro hx; exact Dtype.noConfusion hx)] at he
    cases Option.some.inj he
    refine ⟨hW, hc', ?_⟩
    rw [standardize]
    exact List.mem_map.mpr ⟨c, hc', by rw [if_neg hf32]⟩

/-- Witness for C10: an `int8` category-code column is untouched by
`standardize`, and a `float64` column (with a missing value) passes
through `preprocess` and `standardize` unchanged. -/
theorem standardize_frame_witness :
    (standardize Real.sqrt [⟨"workclass", Dtype.int8, [Cell.num (5 : ℝ)]⟩]).get? 0
      = some ⟨"workclass", Dtype.int8, [Cell.num (5 : ℝ)]⟩
    ∧ widen (⟨"capital_gain", Dtype.float64, [Cell.num (0 : ℝ), Cell.na]⟩ : Col ℝ)
      = ⟨"capital_gain", Dtype.float64, [Cell.num (0 : ℝ), Cell.na]⟩
    ∧ (⟨"capital_gain", Dtype.float64, [Cell.num (0 : ℝ), Cell.na]⟩ : Col ℝ) ∈ uW10'
    ∧ (⟨"capital_gain", Dtype.float64, [Cell.num (0 : ℝ), Cell.na]⟩ : Col ℝ)
      ∈ standardize Real.sqrt uW10' := by
  have h1 := standardize_frame_float64_passthrough.1
    [⟨"workclass", Dtype.int8, [Cell.num (5 : ℝ)]⟩] 0
    ⟨"workclass", Dtype.int8, [Cell.num (5 : ℝ)]⟩ rfl
    (by intro hx; exact Dtype.noConfusion hx)
  have h2 := standardize_frame_float64_passthrough.2 uW10 uW10'
    ⟨"capital_gain", Dtype.float64, [Cell.num (0 : ℝ), Cell.na]⟩
    (by rfl)
    (by
      rw [uW10]
      exact List.mem_cons_of_mem _ (List.mem_cons_of_mem _
        (List.mem_cons_of_mem _ (List.mem_cons_self _ _))))
    (by decide) rfl
  exact ⟨h1, h2.1, h2.2.1, h2.2.2⟩

/-! ## Lemmas about `load_data` -/

section LoadLemmas

variable {F : Type} [Field F]

theorem findCol_name {t : Table F} {nm : String} {c : Col F}
    (h : findCol nm t = some c) : c.name = nm := by
  induction t with
  | nil => exact Option.noConfusion h
  | cons a as ih =>
    rw [findCol] at h
    by_cases hn : a.name = nm
    · rw [if_pos hn] at h
      cases Option.some.inj h
      exact hn
    · rw [if_neg hn] at h
      exact ih h

theorem preprocess_col_length {t tp : Table F} {N : ℕ}
    (h : preprocess t = some tp) (hlen : ∀ c ∈ t, c.vals.length = N) :
    ∀ a ∈ tp, a.vals.length = N := by
  intro a ha
  obtain ⟨c0, hc0, he⟩ := encodeCols_mem_rev (preprocess_body h) a ha
  obtain ⟨c1, hc1, rfl⟩ := List.mem_map.mp hc0
  rw [(encodeCol_name he).2, widen_vals]
  exact hlen c1 (List.mem_filter.mp hc1).1

theorem standardizeCol_length (sq : F → F) (cs : List (Cell F)) :
    (standardizeCol sq cs).length = cs.length := by
  rw [standardizeCol, List.length_map, List.length_map]

theorem standardize_mem {sq : F → F} {t : Table F} {c : Col F}
    (hc : c ∈ standardize sq t) : ∃ c0 ∈ t, c.vals.length = c0.vals.length := by
  rw [standardize] at hc
  obtain ⟨c0, hc0, rfl⟩ := List.mem_map.mp hc
  refine ⟨c0, hc0, ?_⟩
  by_cases hd : c0.dtype = Dtype.float32
  · rw [if_pos hd]
    exact standardizeCol_length sq c0.vals
  · rw [if_neg hd]

end LoadLemmas

theorem mem_zipWith {α β γ : Type _} (f : α → β → γ) :
    ∀ (l : List α) (l' : List β) (c : γ), c ∈ List.zipWith f l l' →
      ∃ a ∈ l, ∃ b ∈ l', c = f a b := by
  intro l
  induction l with
  | nil => intro l' c h; simp at h
  | cons x xs ih =>
    intro l' c h
    cases l' with
    | nil => simp at h
    | cons y ys =>
      rw [List.zipWith_cons_cons] at h
      rcases List.mem_cons.mp h with rfl | h
      · exact ⟨x, List.mem_cons_self _ _, y, List.mem_cons_self _ _, rfl⟩
      · obtain ⟨a, ha, b, hb, rfl⟩ := ih ys c h
        exact ⟨a, List.mem_cons_of_mem _ ha, b, List.mem_cons_of_mem _ hb, rfl⟩

theorem catCode_le50K :
    catCode (F := ℝ) incomeBracketCats (Cell.str "<=50K") = Cell.num 0 := by
  have hidx : incomeBracketCats.indexOf "<=50K" = 0 := by decide
  have hmem : "<=50K" ∈ incomeBracketCats := by decide
  simp [catCode, hmem, hidx]

theorem catCode_gt50K :
    catCode (F := ℝ) incomeBracketCats (Cell.str ">50K") = Cell.num 1 := by
  have hidx : incomeBracketCats.indexOf ">50K" = 1 := by decide
  have hmem : ">50K" ∈ incomeBracketCats := by decide
  simp [catCode, hmem, hidx]

/-! ## Theorem about `load_data` -/

/-- **C3.** `load_data` pops the label column before the combined
normalization: every entry of `train_y`/`eval_y` is exactly the raw label
code 0.0 (for `"<=50K"`) or 1.0 (for `">50K"`), matching the label
vocabulary order and never z-score scaled; the labels are shaped one
singleton row per record and are row-aligned with `train_x`/`eval_x`
respectively. -/
theorem load_label_before_normalize (tdf edf tx : Table ℝ) (ty : List (List ℝ))
    (ex : Table ℝ) (ey : List (List ℝ)) (ct ce : Col ℝ)
    (hload : load_data Real.sqrt tdf edf = some (tx, ty, ex, ey))
    (hct : findCol _LABEL_COLUMN tdf = some ct)
    (hce : findCol _LABEL_COLUMN edf = some ce)
    (hdt : ct.dtype = Dtype.obj) (hde : ce.dtype = Dtype.obj)
    (hctv : ∀ x ∈ ct.vals, x = Cell.str "<=50K" ∨ x = Cell.str ">50K")
    (hcev : ∀ x ∈ ce.vals, x = Cell.str "<=50K" ∨ x = Cell.str ">50K")
    (hrt : ∀ c ∈ tdf, c.vals.length = ct.vals.length)
    (hre : ∀ c ∈ edf, c.vals.length = ce.vals.length) :
    (∀ v ∈ ty, v = [0] ∨ v = [1])
    ∧ (∀ v ∈ ey, v = [0] ∨ v = [1])
    ∧ (∀ k, ct.vals.get? k = some (Cell.str "<=50K") → ty.get? k = some [0])
    ∧ (∀ k, ct.vals.get? k = some (Cell.str ">50K") → ty.get? k = some [1])
    ∧ (∀ k, ce.vals.get? k = some (Cell.str "<=50K") → ey.get? k = some [0])
    ∧ (∀ k, ce.vals.get? k = some (Cell.str ">50K") → ey.get? k = some [1])
    ∧ ty.length = ct.vals.length
    ∧ ey.length = ce.vals.length
    ∧ (∀ c ∈ tx, c.vals.length = ty.length)
    ∧ (∀ c ∈ ex, c.vals.length = ey.length) := by
  -- peel the `load_data` chain
  rw [load_data] at hload
  simp only [Option.bind_eq_some, Option.map_eq_some'] at hload
  obtain ⟨tp, h1, ep, h2, ⟨trY, trX⟩, h3, ⟨evY, evX⟩, h4, allX, h5, h6⟩ := hload
  dsimp only at h3 h4 h5 h6
  simp only [Prod.mk.injEq] at h6
  obtain ⟨h6a, h6b, h6c, h6d⟩ := h6
  subst h6a h6b h6c h6d
  -- the encoded training label column
  have hnmU : _LABEL_COLUMN ∉ UNUSED_COLUMNS := by decide
  have hctn : ct.name = _LABEL_COLUMN := findCol_name hct
  have hcen : ce.name = _LABEL_COLUMN := findCol_name hce
  have hf1 : findCol _LABEL_COLUMN ((tdf.filter keepCol).map widen) = some ct := by
    rw [findCol_map_widen, findCol_filter_keep tdf hnmU, hct, Option.map_some',
      widen_of_ne_int64 (by rw [hdt]; intro hx; exact Dtype.noConfusion hx)]
  obtain ⟨ctE, hfE, heE⟩ := findCol_encodeCols (preprocess_body h1) hf1
  have hvoct : List.lookup ct.name _CATEGORICAL_TYPES = some incomeBracketCats := by
    rw [hctn]; decide
  rw [encodeCol_obj hdt hvoct] at heE
  obtain rfl := (Option.some.inj heE).symm
  -- the encoded evaluation label column
  have hf2 : findCol _LABEL_COLUMN ((edf.filter keepCol).map widen) = some ce := by
    rw [findCol_map_widen, findCol_filter_keep edf hnmU, hce, Option.map_some',
      widen_of_ne_int64 (by rw [hde]; intro hx; exact Dtype.noConfusion hx)]
  obtain ⟨ceE, hfF, heF⟩ := findCol_encodeCols (preprocess_body h2) hf2
  have hvoce : List.lookup ce.name _CATEGORICAL_TYPES = some incomeBracketCats := by
    rw [hcen]; decide
  rw [encodeCol_obj hde hvoce] at heF
  obtain rfl := (Option.some.inj heF).symm
  -- the pops
  rw [popCol, hfE] at h3
  simp only [Option.some.injEq, Prod.mk.injEq] at h3
  obtain ⟨htrY, htrX⟩ := h3
  rw [popCol, hfF] at h4
  simp only [Option.some.injEq, Prod.mk.injEq] at h4
  obtain ⟨hevY, hevX⟩ := h4
  have htrYv : trY.vals = ct.vals.map (catCode incomeBracketCats) := by
    rw [← htrY]
  have hevYv : evY.vals = ce.vals.map (catCode incomeBracketCats) := by
    rw [← hevY]
  have hTY : reshape1 (colToVec trY)
      = ct.vals.map (fun cell => [cellVal (catCode (F := ℝ) incomeBracketCats cell)]) := by
    rw [reshape1, colToVec, htrYv, List.map_map, List.map_map]
    rfl
  have hEY : reshape1 (colToVec evY)
      = ce.vals.map (fun cell => [cellVal (catCode (F := ℝ) incomeBracketCats cell)]) := by
    rw [reshape1, colToVec, hevYv, List.map_map, List.map_map]
    rfl
  -- row counts
  have hnT : trY.vals.length = ct.vals.length := by rw [htrYv, List.length_map]
  have htpL : ∀ a ∈ tp, a.vals.length = ct.vals.length :=
    preprocess_col_length h1 hrt
  have hepL : ∀ a ∈ ep, a.vals.length = ce.vals.length :=
    preprocess_col_length h2 hre
  have htrXL : ∀ a ∈ trX, a.vals.length = ct.vals.length := by
    intro a ha
    rw [← htrX] at ha
    exact htpL a (List.mem_filter.mp ha).1
  have hevXL : ∀ a ∈ evX, a.vals.length = ce.vals.length := by
    intro a ha
    rw [← hevX] at ha
    exact hepL a (List.mem_filter.mp ha).1
  -- the combined table
  rw [concatTables] at h5
  by_cases hcnd : trX.map Col.name = evX.map Col.name
      ∧ trX.map Col.dtype = evX.map Col.dtype
  swap
  · rw [if_neg hcnd] at h5
    exact Option.noConfusion h5
  rw [if_pos hcnd] at h5
  have hallX := Option.some.inj h5
  have hallL : ∀ c0 ∈ allX, c0.vals.length = ct.vals.length + ce.vals.length := by
    intro c0 hc0
    rw [← hallX] at hc0
    obtain ⟨a, ha, b, hb, rfl⟩ := mem_zipWith _ trX evX c0 hc0
    show (a.vals ++ b.vals).length = _
    rw [List.length_append, htrXL a ha, hevXL b hb]
  -- conclusions
  rw [hTY, hEY]
  refine ⟨?_, ?_, ?_, ?_, ?_, ?_, by rw [List.length_map], by rw [List.length_map],
    ?_, ?_⟩
  · intro v hv
    obtain ⟨cell, hcell, rfl⟩ := List.mem_map.mp hv
    rcases hctv cell hcell with rfl | rfl
    · left
      rw [catCode_le50K]
      rfl
    · right
      rw [catCode_gt50K]
      rfl
  · intro v hv
    obtain ⟨cell, hcell, rfl⟩ := List.mem_map.mp hv
    rcases hcev cell hcell with rfl | rfl
    · left
      rw [catCode_le50K]
      rfl
    · right
      rw [catCode_gt50K]
      rfl
  · intro k hk
    rw [List.get?_map, hk, Option.map_some']
    show some [cellVal (catCode (F := ℝ) incomeBracketCats (Cell.str "<=50K"))] = _
    rw [catCode_le50K]
    rfl
  · intro k hk
    rw [List.get?_map, hk, Option.map_some']
    show some [cellVal (catCode (F := ℝ) incomeBracketCats (Cell.str ">50K"))] = _
    rw [catCode_gt50K]
    rfl
  · intro k hk
    rw [List.get?_map, hk, Option.map_some']
    show some [cellVal (catCode (F := ℝ) incomeBracketCats (Cell.str "<=50K"))] = _
    rw [catCode_le50K]
    rfl
  · intro k hk
    rw [List.get?_map, hk, Option.map_some']
    show some [cellVal (catCode (F := ℝ) incomeBracketCats (Cell.str ">50K"))] = _
    rw [catCode_gt50K]
    rfl
  · intro c hc
    rw [tableTake] at hc
    obtain ⟨c1, hc1, rfl⟩ := List.mem_map.mp hc
    obtain ⟨c0, hc0, hlen⟩ := standardize_mem hc1
    show (c1.vals.take trY.vals.length).length = _
    rw [List.length_take, hlen, hallL c0 hc0, hnT, List.length_map]
    omega
  · intro c hc
    rw [tableDrop] at hc
    obtain ⟨c1, hc1, rfl⟩ := List.mem_map.mp hc
    obtain ⟨c0, hc0, hlen⟩ := standardize_mem hc1
    show (c1.vals.drop trY.vals.length).length = _
    rw [List.length_drop, hlen, hallL c0 hc0, hnT, List.length_map]
    omega

/-- Witness for C3: a two-row train table and one-row eval table whose
labels load as exactly `[[0], [1]]` and `[[1]]`. -/
theorem load_label_before_normalize_witness :
    load_data Real.sqrt tdfC3 edfC3
      = some (txC3, [[((0 : ℕ) : ℝ)], [((1 : ℕ) : ℝ)]], exC3, [[((1 : ℕ) : ℝ)]])
    ∧ ([[((0 : ℕ) : ℝ)], [((1 : ℕ) : ℝ)]] : List (List ℝ)).get? 0 = some [0]
    ∧ ([[((0 : ℕ) : ℝ)], [((1 : ℕ) : ℝ)]] : List (List ℝ)).get? 1 = some [1]
    ∧ ([[((1 : ℕ) : ℝ)]] : List (List ℝ)).get? 0 = some [1] := by
  have hload : load_data Real.sqrt tdfC3 edfC3
      = some (txC3, [[((0 : ℕ) : ℝ)], [((1 : ℕ) : ℝ)]], exC3, [[((1 : ℕ) : ℝ)]]) := by
    rfl
  have h := load_label_before_normalize tdfC3 edfC3 txC3
    [[((0 : ℕ) : ℝ)], [((1 : ℕ) : ℝ)]] exC3 [[((1 : ℕ) : ℝ)]] ctC3 ceC3 hload
    rfl rfl rfl rfl
    (by
      intro x hx
      rcases List.mem_cons.mp hx with rfl | hx
      · exact Or.inl rfl
      · rcases List.mem_cons.mp hx with rfl | hx
        · exact Or.inr rfl
        · exact absurd hx (List.not_mem_nil x))
    (by
      intro x hx
      rcases List.mem_cons.mp hx with rfl | hx
      · exact Or.inr rfl
      · exact absurd hx (List.not_mem_nil x))
    (by
      intro c hc
      rcases List.mem_cons.mp hc with rfl | hc
      · rfl
      · rcases List.mem_cons.mp hc with rfl | hc
        · rfl
        · rcases List.mem_cons.mp hc with rfl | hc
          · rfl
          · rcases List.mem_cons.mp hc with rfl | hc
            · rfl
            · rcases List.mem_cons.mp hc with rfl | hc
              · rfl
              · exact absurd hc (List.not_mem_nil c))
    (by
      intro c hc
      rcases List.mem_cons.mp hc with rfl | hc
      · rfl
      · rcases List.mem_cons.mp hc with rfl | hc
        · rfl
        · rcases List.mem_cons.mp hc with rfl | hc
          · rfl
          · rcases List.mem_cons.mp hc with rfl | hc
            · rfl
            · rcases List.mem_cons.mp hc with rfl | hc
              · rfl
              · exact absurd hc (List.not_mem_nil c))
  exact ⟨hload, h.2.2.1 0 rfl, h.2.2.2.1 1 rfl, h.2.2.2.2.2.1 0 rfl⟩

end CensusPipeline
